import Mathlib

/-!
Shallow embedding of the murmel p2p dispatcher module (src/p2p.rs) together
with proofs about its buffer, codec, handshake and disconnect logic.

Bytes are modelled as Nat, byte vectors as List Nat, the VecDeque of chunks
as List (List Nat).  The consensus codec of the bitcoin library is external
to the repository and is modelled as an abstract decoder function that
consumes a prefix of the unread byte stream.
-/

namespace Murmel

/-- READ_BUFFER_SIZE constant from p2p.rs (target chunk size of the buffer). -/
def READ_BUFFER_SIZE : Nat := 1024

/-- The segmented Buffer of p2p.rs: a deque of chunks, a read cursor
pos = (chunk index, offset in chunk) and a saved checkpoint cursor. -/
structure Buffer where
  content : List (List Nat)
  pos : Nat × Nat
  checkpoint : Nat × Nat
deriving DecidableEq

/-- Buffer::new. -/
def Buffer.new : Buffer := ⟨[], (0, 0), (0, 0)⟩

/-- Buffer::checkpoint, saving the cursor (named setCheckpoint because the
field of the structure already carries the source name). -/
def Buffer.setCheckpoint (b : Buffer) : Buffer := { b with checkpoint := b.pos }

/-- Buffer::rollback, restoring the cursor to the saved checkpoint. -/
def Buffer.rollback (b : Buffer) : Buffer := { b with pos := b.checkpoint }

/-- Buffer::commit: pop pos.0 chunks from the front, then set pos.0 to 0. -/
def Buffer.commit (b : Buffer) : Buffer :=
  { b with content := b.content.drop b.pos.1, pos := (0, b.pos.2) }

/-- Buffer::into_vec: concatenate all chunks. -/
def Buffer.into_vec (b : Buffer) : List Nat := b.content.flatten

/-- Write::write for Buffer: if the chunk at the cursor index exists and is
below READ_BUFFER_SIZE, extend it in place, otherwise push the bytes as a
new chunk at the back; empty writes are a no-op. -/
def Buffer.write (b : Buffer) (buf : List Nat) : Buffer :=
  if 0 < buf.length then
    if 0 < b.content.length ∧ (b.content.getD b.pos.1 []).length < READ_BUFFER_SIZE then
      { b with content := b.content.set b.pos.1 ((b.content.getD b.pos.1 []) ++ buf) }
    else
      { b with content := b.content ++ [buf] }
  else b

/-- The while loop of Read::read for Buffer, with explicit fuel.  State is
the cursor (p0, p1), the count hv of bytes copied so far and the bytes acc
copied so far; dstLen is the length of the destination slice. -/
def readGo (content : List (List Nat)) (dstLen : Nat) :
    Nat → Nat × Nat → Nat → List Nat → (Nat × Nat) × Nat × List Nat
  | 0, pos, hv, acc => (pos, hv, acc)
  | fuel + 1, (p0, p1), hv, acc =>
    if hv < dstLen then
      if p1 + min (dstLen - hv) ((content.getD p0 []).length - p1)
          = (content.getD p0 []).length then
        if p0 < content.length - 1 then
          readGo content dstLen fuel (p0 + 1, 0)
            (hv + min (dstLen - hv) ((content.getD p0 []).length - p1))
            (acc ++ ((content.getD p0 []).drop p1).take
              (min (dstLen - hv) ((content.getD p0 []).length - p1)))
        else
          ((p0, p1 + min (dstLen - hv) ((content.getD p0 []).length - p1)),
            hv + min (dstLen - hv) ((content.getD p0 []).length - p1),
            acc ++ ((content.getD p0 []).drop p1).take
              (min (dstLen - hv) ((content.getD p0 []).length - p1)))
      else
        readGo content dstLen fuel (p0, p1 + min (dstLen - hv) ((content.getD p0 []).length - p1))
          (hv + min (dstLen - hv) ((content.getD p0 []).length - p1))
          (acc ++ ((content.getD p0 []).drop p1).take
            (min (dstLen - hv) ((content.getD p0 []).length - p1)))
    else ((p0, p1), hv, acc)

/-- Read::read for Buffer: returns 0 if the deque of chunks is empty, else
runs the copy loop; result is the buffer with moved cursor, the count of
bytes copied, and the bytes themselves. -/
def Buffer.read (b : Buffer) (dstLen : Nat) : Buffer × Nat × List Nat :=
  if b.content.length = 0 then (b, 0, [])
  else
    ({ b with pos := (readGo b.content dstLen (dstLen + b.content.length + 1) b.pos 0 []).1 },
      (readGo b.content dstLen (dstLen + b.content.length + 1) b.pos 0 []).2.1,
      (readGo b.content dstLen (dstLen + b.content.length + 1) b.pos 0 []).2.2)

/-- The unread bytes of a chunk deque viewed from cursor (p0, p1). -/
def chunksRem (content : List (List Nat)) (p0 p1 : Nat) : List Nat :=
  (content.getD p0 []).drop p1 ++ (content.drop (p0 + 1)).flatten

/-- The unread bytes of a buffer. -/
def Buffer.bytesAfter (b : Buffer) : List Nat :=
  chunksRem b.content b.pos.1 b.pos.2

/-- Well formed cursor: either no chunks at all, or the cursor points into
the chunk list with an offset not past the end of its chunk. -/
def Buffer.WF (b : Buffer) : Prop :=
  b.content = [] ∨
    (b.pos.1 < b.content.length ∧ b.pos.2 ≤ (b.content.getD b.pos.1 []).length)

instance (b : Buffer) : Decidable b.WF := by
  unfold Buffer.WF; infer_instance

/-- Outcome of one attempt of the external consensus decoder on the unread
byte stream: success with a message and the count of consumed bytes, the
byte-order short-read condition, or another decode error (an error code),
each with the count of bytes consumed before stopping. -/
inductive DecOut (Msg : Type) where
  | ok (m : Msg) (consumed : Nat)
  | byteOrder (consumed : Nat)
  | err (code : Nat) (consumed : Nat)
deriving DecidableEq

/-- Number of bytes the decoder consumed. -/
def DecOut.consumed {Msg : Type} : DecOut Msg → Nat
  | .ok _ n => n
  | .byteOrder n => n
  | .err _ n => n

/-- Run the external decoder on a buffer: it reads the bytes it consumes
through the Read instance of Buffer, so the cursor advances by the consumed
count; its outcome is a function of the unread bytes. -/
def runDecoder {Msg : Type} (dec : List Nat → DecOut Msg) (b : Buffer) :
    Buffer × DecOut Msg :=
  ((b.read (dec b.bytesAfter).consumed).1, dec b.bytesAfter)

/-- The decode function of p2p.rs: checkpoint the cursor, attempt one
consensus decode, then commit on success, rollback and yield none on the
byte-order condition, and propagate any other error without touching the
cursor. -/
def decode {Msg : Type} (dec : List Nat → DecOut Msg) (src : Buffer) :
    Buffer × Except Nat (Option Msg) :=
  match (runDecoder dec src.setCheckpoint).2 with
  | .ok m _ => (((runDecoder dec src.setCheckpoint).1).commit, Except.ok (some m))
  | .byteOrder _ => (((runDecoder dec src.setCheckpoint).1).rollback, Except.ok none)
  | .err e _ => ((runDecoder dec src.setCheckpoint).1, Except.error e)

/-- The encode function of p2p.rs: serialise one framed message into the
write side of the buffer; the external encoder is the enc parameter. -/
def encode {Msg : Type} (enc : Msg → List Nat) (item : Msg) (dst : Buffer) : Buffer :=
  dst.write (enc item)

/-- The fields of the VersionMessage of the bitcoin library that the
dispatcher reads (addresses are omitted). -/
structure VersionMessage where
  version : Nat
  services : Nat
  timestamp : Int
  nonce : Nat
  user_agent : String
  start_height : Int
  relay : Bool
deriving DecidableEq

/-- The network messages the handshake distinguishes: a version message, a
verack, or any other message type (abstracted by a tag). -/
inductive NetworkMessage where
  | version (v : VersionMessage)
  | verack
  | other (tag : Nat)
deriving DecidableEq

/-- Result of Peer::process_handshake. -/
inductive HandShake where
  | Disconnect
  | InProgress
  | Handshake
  | Process
deriving DecidableEq

/-- Poller registration state of a peer socket: whether it is currently
registered for read readiness and for write readiness. -/
structure Registration where
  regRead : Bool
  regWrite : Bool
deriving DecidableEq

/-- The Peer of p2p.rs: its id, inbound buffer, handshake state, the local
nonce, the remote version record, the outbound mailbox channel and the
poller registration of its socket. -/
structure Peer where
  pid : Nat
  buffer : Buffer
  got_verack : Bool
  nonce : Nat
  version : Option VersionMessage
  mailbox : List NetworkMessage
  reg : Registration
deriving DecidableEq

/-- Peer::register_read - register the socket for read readiness. -/
def Peer.register_read (p : Peer) : Peer :=
  { p with reg := { p.reg with regRead := true } }

/-- Peer::register_write - register the socket for write readiness. -/
def Peer.register_write (p : Peer) : Peer :=
  { p with reg := { p.reg with regWrite := true } }

/-- Peer::deregister - remove the socket from the poller. -/
def Peer.deregister (p : Peer) : Peer :=
  { p with reg := ⟨false, false⟩ }

/-- Peer::send - enqueue the message on the mailbox channel, deregister,
then register for write. -/
def Peer.send (p : Peer) (msg : NetworkMessage) : Peer :=
  (({ p with mailbox := p.mailbox ++ [msg] }).deregister).register_write

/-- Peer::new - fresh peer with empty buffer and mailbox, no version, no
verack, registered for read. -/
def Peer.new (pid nonce : Nat) : Peer :=
  (({ pid := pid, buffer := Buffer.new, got_verack := false, nonce := nonce,
      version := none, mailbox := [], reg := ⟨false, false⟩ } : Peer)).register_read

/-- Peer::try_receive - nonblocking pop of the oldest mailbox message. -/
def Peer.try_receive (p : Peer) : Option NetworkMessage × Peer :=
  match p.mailbox with
  | [] => (none, p)
  | m :: rest => (some m, { p with mailbox := rest })

/-- The check after the message match in process_handshake: Handshake when
both version and verack have arrived, InProgress otherwise. -/
def Peer.handshakeResult (q : Peer) : HandShake × Peer :=
  if q.version.isSome ∧ q.got_verack then (HandShake.Handshake, q)
  else (HandShake.InProgress, q)

/-- Peer::process_handshake of p2p.rs. -/
def Peer.process_handshake (p : Peer) (msg : NetworkMessage) : HandShake × Peer :=
  if ¬(p.version.isSome ∧ p.got_verack) then
    match msg with
    | NetworkMessage.version v =>
      if p.version.isSome then (HandShake.Disconnect, p)
      else if v.nonce = p.nonce then (HandShake.Disconnect, p)
      else if Nat.land v.services 9 ≠ 9 ∨ v.version < 70013 then (HandShake.Disconnect, p)
      else Peer.handshakeResult { p.send NetworkMessage.verack with version := some v }
    | NetworkMessage.verack =>
      if p.got_verack then (HandShake.Disconnect, p)
      else Peer.handshakeResult { p with got_verack := true }
    | NetworkMessage.other _ => (HandShake.Disconnect, p)
  else (HandShake.Process, p)

/-- The mailbox drain loop of the writable branch of event_processor:
repeated try_receive until empty, collecting the sent messages in order. -/
def drainSend : List NetworkMessage → List NetworkMessage → List NetworkMessage
  | [], acc => acc
  | m :: rest, acc => drainSend rest (acc ++ [m])

/-- The writable branch of event_processor for one peer: drain the mailbox
to the socket, then deregister and re-register for read.  Returns the peer
and the list of messages written to the socket. -/
def Peer.writableDrain (p : Peer) : Peer × List NetworkMessage :=
  ((({ p with mailbox := [] }).deregister).register_read, drainSend p.mailbox [])

/-- The operations the dispatcher performs on a live peer. -/
inductive PeerOp where
  | send (m : NetworkMessage)
  | handshake (m : NetworkMessage)
  | writable

/-- Apply one dispatcher operation to a peer. -/
def applyOp (p : Peer) : PeerOp → Peer
  | PeerOp.send m => p.send m
  | PeerOp.handshake m => (p.process_handshake m).2
  | PeerOp.writable => (p.writableDrain).1

/-- Apply a sequence of dispatcher operations to a peer. -/
def applyOps (p : Peer) (ops : List PeerOp) : Peer :=
  ops.foldl applyOp p

/-- Feed a sequence of messages through process_handshake. -/
def runHandshake (p : Peer) (ms : List NetworkMessage) : Peer :=
  ms.foldl (fun q m => (q.process_handshake m).2) p

/-- Exclusive registration invariant: registered for read xor for write. -/
def RegOk (p : Peer) : Prop :=
  (p.reg.regRead = true ∧ p.reg.regWrite = false) ∨
    (p.reg.regRead = false ∧ p.reg.regWrite = true)

instance (p : Peer) : Decidable (RegOk p) := by
  unfold RegOk; infer_instance

/-- The dispatcher state the disconnect paths of event_processor touch: the
peer registry keyed by peer id and the trace of node.disconnected calls. -/
structure Dispatcher where
  registry : List Nat
  disconnectedCalls : List Nat
deriving DecidableEq

/-- The hangup branch of event_processor (also the shape of the readable
branch when the disconnect flag is set): remove the peer from the registry
if still present, then call node.disconnected unconditionally. -/
def hupEvent (s : Dispatcher) (pid : Nat) : Dispatcher :=
  let s1 := if pid ∈ s.registry then { s with registry := s.registry.erase pid } else s
  { s1 with disconnectedCalls := s1.disconnectedCalls ++ [pid] }

/-- The ProcessResult::Disconnect branch of event_processor: shut the
socket down but leave the registry unchanged, then call node.disconnected. -/
def processDisconnect (s : Dispatcher) (pid : Nat) : Dispatcher :=
  { s with disconnectedCalls := s.disconnectedCalls ++ [pid] }

/-- Concrete single byte codec used as decoder instance in witnesses. -/
def encNat (m : Nat) : List Nat := [m]

/-- Concrete decoder matching encNat: one byte is one message. -/
def decNat : List Nat → DecOut Nat
  | [] => DecOut.byteOrder 0
  | x :: _ => DecOut.ok x 1

/-- Decoder instance that always reports the byte-order condition after
consuming one byte. -/
def decShort : List Nat → DecOut Nat := fun _ => DecOut.byteOrder 1

/-- Decoder instance that always fails fatally after consuming one byte. -/
def decFatal : List Nat → DecOut Nat := fun _ => DecOut.err 3 1

/-- Concrete well formed remote version record used in witnesses. -/
def vGood : VersionMessage :=
  { version := 70015, services := 9, timestamp := 0, nonce := 2,
    user_agent := "/x/", start_height := 100, relay := false }

/-- Concrete peer in the terminal handshake state. -/
def pTerminal : Peer :=
  { pid := 0, buffer := Buffer.new, got_verack := true, nonce := 1,
    version := some vGood, mailbox := [], reg := ⟨true, false⟩ }

/-- Concrete peer that has a remote version but no verack yet. -/
def pSecondVersion : Peer :=
  { pid := 0, buffer := Buffer.new, got_verack := false, nonce := 1,
    version := some vGood, mailbox := [], reg := ⟨true, false⟩ }

/-- Concrete fresh peer awaiting the handshake. -/
def pFresh : Peer :=
  { pid := 0, buffer := Buffer.new, got_verack := false, nonce := 1,
    version := none, mailbox := [], reg := ⟨true, false⟩ }

theorem chunksRem_zero_zero (content : List (List Nat)) :
    chunksRem content 0 0 = content.flatten := by
  cases content with
  | nil => simp [chunksRem]
  | cons c cs => simp [chunksRem, List.flatten]

theorem Buffer.read_content (b : Buffer) (n : Nat) : ((b.read n).1).content = b.content := by
  unfold Buffer.read; split <;> rfl

theorem Buffer.read_checkpoint (b : Buffer) (n : Nat) :
    ((b.read n).1).checkpoint = b.checkpoint := by
  unfold Buffer.read; split <;> rfl

theorem Buffer.bytesAfter_setCheckpoint (b : Buffer) :
    b.setCheckpoint.bytesAfter = b.bytesAfter := rfl

theorem Buffer.bytesAfter_commit (b : Buffer) :
    b.commit.bytesAfter = b.bytesAfter := by
  rcases b with ⟨content, ⟨p0, p1⟩, cp⟩
  simp only [Buffer.commit, Buffer.bytesAfter, chunksRem]
  have h1 : (content.drop p0).getD 0 [] = content.getD p0 [] := by
    simp [List.getD_eq_getElem?_getD, List.getElem?_drop]
  have h2 : (content.drop p0).drop 1 = content.drop (p0 + 1) := by
    rw [List.drop_drop]
  rw [h1, h2]

theorem chunksRem_at_zero (content : List (List Nat)) (i : Nat) (h : i < content.length) :
    chunksRem content i 0 = (content.drop i).flatten := by
  unfold chunksRem
  conv_rhs => rw [List.drop_eq_getElem_cons h, List.flatten_cons]
  simp [List.getD_eq_getElem?_getD, List.getElem?_eq_getElem h]

theorem readGo_spec (content : List (List Nat)) (dstLen : Nat) :
    ∀ (fuel p0 p1 hv : Nat) (acc : List Nat),
      p0 < content.length →
      p1 ≤ (content.getD p0 []).length →
      dstLen - hv + (content.length - p0) + 1 ≤ fuel →
      ∃ p2 q2,
        readGo content dstLen fuel (p0, p1) hv acc =
          ((p2, q2),
            hv + min (dstLen - hv) (chunksRem content p0 p1).length,
            acc ++ (chunksRem content p0 p1).take
              (min (dstLen - hv) (chunksRem content p0 p1).length)) ∧
        chunksRem content p2 q2 =
          (chunksRem content p0 p1).drop
            (min (dstLen - hv) (chunksRem content p0 p1).length) ∧
        p2 < content.length ∧ q2 ≤ (content.getD p2 []).length := by
  intro fuel
  induction fuel with
  | zero =>
    intro p0 p1 hv acc _ _ hf
    omega
  | succ fuel ih =>
    intro p0 p1 hv acc h0 h1 hf
    have hlen : (chunksRem content p0 p1).length
        = ((content.getD p0 []).length - p1) + ((content.drop (p0 + 1)).flatten).length := by
      simp [chunksRem]
    by_cases hlt : hv < dstLen
    · by_cases hend : p1 + min (dstLen - hv) ((content.getD p0 []).length - p1)
          = (content.getD p0 []).length
      · have e1 : min (dstLen - hv) ((content.getD p0 []).length - p1)
            = (content.getD p0 []).length - p1 := by omega
        by_cases hmid : p0 < content.length - 1
        · -- interior chunk exhausted: advance to the next chunk and recurse
          have h0b : p0 + 1 < content.length := by omega
          have hfb : dstLen - (hv + min (dstLen - hv) ((content.getD p0 []).length - p1))
              + (content.length - (p0 + 1)) + 1 ≤ fuel := by omega
          obtain ⟨p2, q2, heq, hrem, hp2, hq2⟩ :=
            ih (p0 + 1) 0 (hv + min (dstLen - hv) ((content.getD p0 []).length - p1))
              (acc ++ ((content.getD p0 []).drop p1).take
                (min (dstLen - hv) ((content.getD p0 []).length - p1)))
              h0b (Nat.zero_le _) hfb
          have hCR : chunksRem content (p0 + 1) 0 = (content.drop (p0 + 1)).flatten :=
            chunksRem_at_zero content (p0 + 1) h0b
          rw [hCR, e1] at heq
          rw [hCR] at hrem
          refine ⟨p2, q2, ?_, ?_, hp2, hq2⟩
          · simp only [readGo]
            rw [if_pos hlt, if_pos hend, if_pos hmid, e1, heq]
            simp only [Prod.mk.injEq, true_and]
            constructor
            · rw [hlen]; omega
            · rw [List.append_assoc]
              congr 1
              rw [hlen]
              simp only [chunksRem]
              rw [List.take_append_eq_append_take, List.length_drop]
              have ht1 : ((content.getD p0 []).drop p1).take
                  ((content.getD p0 []).length - p1)
                  = (content.getD p0 []).drop p1 := by
                apply List.take_of_length_le; rw [List.length_drop]
              have ht2 : ((content.getD p0 []).drop p1).take
                  (min (dstLen - hv) ((content.getD p0 []).length - p1
                    + ((content.drop (p0 + 1)).flatten).length))
                  = (content.getD p0 []).drop p1 := by
                apply List.take_of_length_le; rw [List.length_drop]; omega
              rw [ht1, ht2]
              have hidx : min (dstLen - (hv + ((content.getD p0 []).length - p1)))
                  (((content.drop (p0 + 1)).flatten).length)
                  = min (dstLen - hv) ((content.getD p0 []).length - p1
                    + ((content.drop (p0 + 1)).flatten).length)
                    - ((content.getD p0 []).length - p1) := by omega
              rw [hidx]
          · rw [hrem, hlen, e1]
            simp only [chunksRem]
            rw [List.drop_append_eq_append_drop, List.length_drop]
            have hd1 : ((content.getD p0 []).drop p1).drop
                (min (dstLen - hv) ((content.getD p0 []).length - p1
                  + ((content.drop (p0 + 1)).flatten).length)) = [] := by
              apply List.drop_eq_nil_of_le; rw [List.length_drop]; omega
            rw [hd1, List.nil_append]
            have hidx : min (dstLen - (hv + ((content.getD p0 []).length - p1)))
                (((content.drop (p0 + 1)).flatten).length)
                = min (dstLen - hv) ((content.getD p0 []).length - p1
                  + ((content.drop (p0 + 1)).flatten).length)
                  - ((content.getD p0 []).length - p1) := by omega
            rw [hidx]
        · -- last chunk exhausted: stop with the cursor at the end of it
          have hrest : content.drop (p0 + 1) = [] :=
            List.drop_eq_nil_of_le (by omega)
          have hlz : ((content.drop (p0 + 1)).flatten).length = 0 := by
            rw [hrest]; rfl
          refine ⟨p0, p1 + min (dstLen - hv) ((content.getD p0 []).length - p1), ?_, ?_, h0, ?_⟩
          · simp only [readGo]
            rw [if_pos hlt, if_pos hend, if_neg hmid]
            simp only [Prod.mk.injEq, true_and]
            constructor
            · rw [hlen, hlz, Nat.add_zero]
            · rw [hlen, hlz, Nat.add_zero]
              simp only [chunksRem, hrest, List.flatten_nil, List.append_nil]
          · rw [hlen, hlz, Nat.add_zero]
            simp only [chunksRem, hrest, List.flatten_nil, List.append_nil]
            rw [List.drop_drop]
          · omega
      · -- destination filled inside the current chunk: recurse and stop there
        have e2 : min (dstLen - hv) ((content.getD p0 []).length - p1)
            = dstLen - hv := by omega
        have h1b : p1 + min (dstLen - hv) ((content.getD p0 []).length - p1)
            ≤ (content.getD p0 []).length := by omega
        have hfb : dstLen - (hv + min (dstLen - hv) ((content.getD p0 []).length - p1))
            + (content.length - p0) + 1 ≤ fuel := by omega
        obtain ⟨p2, q2, heq, hrem, hp2, hq2⟩ :=
          ih p0 (p1 + min (dstLen - hv) ((content.getD p0 []).length - p1))
            (hv + min (dstLen - hv) ((content.getD p0 []).length - p1))
            (acc ++ ((content.getD p0 []).drop p1).take
              (min (dstLen - hv) ((content.getD p0 []).length - p1)))
            h0 h1b hfb
        rw [e2] at heq hrem
        have hm2 : min (dstLen - (hv + (dstLen - hv)))
            ((chunksRem content p0 (p1 + (dstLen - hv))).length) = 0 := by
          omega
        rw [hm2, List.take_zero, List.append_nil, Nat.add_zero] at heq
        rw [hm2, List.drop_zero] at hrem
        refine ⟨p2, q2, ?_, ?_, hp2, hq2⟩
        · simp only [readGo]
          rw [if_pos hlt, if_neg hend, e2, heq]
          simp only [Prod.mk.injEq, true_and]
          constructor
          · rw [hlen]; omega
          · congr 1
            rw [hlen]
            simp only [chunksRem]
            rw [List.take_append_eq_append_take, List.length_drop]
            have hz : min (dstLen - hv) ((content.getD p0 []).length - p1
                + ((content.drop (p0 + 1)).flatten).length)
                - ((content.getD p0 []).length - p1) = 0 := by omega
            rw [hz, List.take_zero, List.append_nil]
            congr 1
            omega
        · rw [hrem, hlen]
          simp only [chunksRem]
          rw [List.drop_append_eq_append_drop, List.length_drop]
          have hz : min (dstLen - hv) ((content.getD p0 []).length - p1
              + ((content.drop (p0 + 1)).flatten).length)
              - ((content.getD p0 []).length - p1) = 0 := by omega
          rw [hz, List.drop_zero, List.drop_drop]
          congr 2
          omega
    · have ha : dstLen - hv = 0 := by omega
      refine ⟨p0, p1, ?_, ?_, h0, h1⟩
      · simp only [readGo]
        rw [if_neg hlt]
        simp [ha]
      · simp [ha]

theorem Buffer.read_spec (b : Buffer) (n : Nat) (hwf : b.WF) :
    (b.read n).2.1 = min n b.bytesAfter.length ∧
    (b.read n).2.2 = b.bytesAfter.take (min n b.bytesAfter.length) ∧
    ((b.read n).1).bytesAfter = b.bytesAfter.drop (min n b.bytesAfter.length) ∧
    ((b.read n).1).WF := by
  rcases b with ⟨content, ⟨p0, p1⟩, cp⟩
  rcases hwf with hnil | ⟨hp, hq⟩
  · subst hnil
    simp [Buffer.read, Buffer.bytesAfter, chunksRem, Buffer.WF]
  · simp only at hp hq
    have hne : ¬ content.length = 0 := by omega
    obtain ⟨p2, q2, heq, hrem, hp2, hq2⟩ :=
      readGo_spec content n (n + content.length + 1) p0 p1 0 [] hp hq (by omega)
    simp only [Buffer.read, Buffer.bytesAfter, Buffer.WF]
    rw [if_neg hne]
    simp only [heq, Nat.sub_zero, Nat.zero_add, List.nil_append]
    exact ⟨trivial, trivial, hrem, Or.inr ⟨hp2, hq2⟩⟩

/-- C1: decode checkpoints the cursor first; on a full decode it commits
the buffer and returns some message; on the byte-order short-read
condition it rolls the cursor back to the checkpoint and returns none; any
other decode failure is returned as an error. -/
theorem C1_decode_checkpoint_commit_rollback (Msg : Type) (dec : List Nat → DecOut Msg)
    (b : Buffer) :
    (∀ (m : Msg) (n : Nat), dec b.bytesAfter = DecOut.ok m n →
      decode dec b = ((((b.setCheckpoint).read n).1).commit, Except.ok (some m))) ∧
    (∀ n : Nat, dec b.bytesAfter = DecOut.byteOrder n →
      decode dec b = ((((b.setCheckpoint).read n).1).rollback, Except.ok none) ∧
      ((decode dec b).1).pos = b.pos ∧ ((decode dec b).1).content = b.content) ∧
    (∀ (e n : Nat), dec b.bytesAfter = DecOut.err e n →
      (decode dec b).2 = Except.error e) := by
  refine ⟨?_, ?_, ?_⟩
  · intro m n h
    simp only [decode, runDecoder, Buffer.bytesAfter_setCheckpoint, h, DecOut.consumed]
  · intro n h
    have h1 : decode dec b = ((((b.setCheckpoint).read n).1).rollback, Except.ok none) := by
      simp only [decode, runDecoder, Buffer.bytesAfter_setCheckpoint, h, DecOut.consumed]
    refine ⟨h1, ?_, ?_⟩
    · rw [h1]
      show (((b.setCheckpoint).read n).1).checkpoint = b.pos
      rw [Buffer.read_checkpoint]
      rfl
    · rw [h1]
      show (((b.setCheckpoint).read n).1).content = b.content
      rw [Buffer.read_content]
      rfl
  · intro e n h
    simp only [decode, runDecoder, Buffer.bytesAfter_setCheckpoint, h, DecOut.consumed]

/-- C1 witness: a concrete byte-order outcome returns none and restores the
cursor and contents. -/
theorem C1_decode_checkpoint_commit_rollback_witness :
    (decode decShort (Buffer.new.write [5, 6])).2 = Except.ok none ∧
    ((decode decShort (Buffer.new.write [5, 6])).1).pos = (Buffer.new.write [5, 6]).pos ∧
    ((decode decShort (Buffer.new.write [5, 6])).1).content
      = (Buffer.new.write [5, 6]).content := by
  obtain ⟨h1, h2, h3⟩ :=
    (C1_decode_checkpoint_commit_rollback Nat decShort (Buffer.new.write [5, 6])).2.1 1 rfl
  exact ⟨by rw [h1], h2, h3⟩

/-- C9: on a fatal decode failure the returned buffer is exactly the buffer
the failed attempt produced - checkpoint saved and cursor advanced by the
consumed bytes - with neither commit nor rollback applied. -/
theorem C9_err_buffer_left (Msg : Type) (dec : List Nat → DecOut Msg) (b : Buffer)
    (e n : Nat) (h : dec b.bytesAfter = DecOut.err e n) :
    decode dec b = (((b.setCheckpoint).read n).1, Except.error e) := by
  simp only [decode, runDecoder, Buffer.bytesAfter_setCheckpoint, h, DecOut.consumed]

/-- C9 witness: a concrete fatal failure leaves the cursor where the
attempt stopped instead of restoring it. -/
theorem C9_err_buffer_left_witness :
    (decode decFatal (Buffer.new.write [9, 8])).2 = Except.error 3 ∧
    ((decode decFatal (Buffer.new.write [9, 8])).1).pos = (0, 1) ∧
    (Buffer.new.write [9, 8]).pos = (0, 0) := by
  have h := C9_err_buffer_left Nat decFatal (Buffer.new.write [9, 8]) 3 1 rfl
  refine ⟨by rw [h], by rw [h]; decide, by decide⟩

theorem write_write_fresh (x r : List Nat) (hx : x ≠ []) :
    (((Buffer.new.write x).write r)).pos = (0, 0) ∧
    (((Buffer.new.write x).write r)).bytesAfter = x ++ r ∧
    (((Buffer.new.write x).write r)).WF := by
  have hx1 : 0 < x.length := List.length_pos.mpr hx
  have h1 : Buffer.new.write x = ⟨[x], (0, 0), (0, 0)⟩ := by
    simp [Buffer.write, Buffer.new, hx1]
  rw [h1]
  by_cases hr : 0 < r.length
  · by_cases hc : x.length < READ_BUFFER_SIZE
    · have h2 : (Buffer.mk [x] (0, 0) (0, 0)).write r = ⟨[x ++ r], (0, 0), (0, 0)⟩ := by
        simp [Buffer.write, hr, hc]
      rw [h2]
      refine ⟨rfl, ?_, Or.inr ⟨by simp, by simp⟩⟩
      show chunksRem [x ++ r] 0 0 = x ++ r
      rw [chunksRem_zero_zero]
      simp
    · have h2 : (Buffer.mk [x] (0, 0) (0, 0)).write r = ⟨[x, r], (0, 0), (0, 0)⟩ := by
        simp [Buffer.write, hr, hc]
      rw [h2]
      refine ⟨rfl, ?_, Or.inr ⟨by simp, by simp⟩⟩
      show chunksRem [x, r] 0 0 = x ++ r
      rw [chunksRem_zero_zero]
      simp
  · have hr0 : r = [] := by
      cases r with
      | nil => rfl
      | cons a l => simp at hr
    subst hr0
    have h2 : (Buffer.mk [x] (0, 0) (0, 0)).write [] = ⟨[x], (0, 0), (0, 0)⟩ := by
      simp [Buffer.write]
    rw [h2]
    refine ⟨rfl, ?_, Or.inr ⟨by simp, by simp⟩⟩
    show chunksRem [x] 0 0 = x ++ []
    rw [chunksRem_zero_zero]
    simp

/-- C8: writing the encoding of a message followed by arbitrary trailing
bytes into a fresh buffer and decoding yields that message and leaves
exactly the trailing bytes as the unread remainder. -/
theorem C8_roundtrip (Msg : Type) (enc : Msg → List Nat) (dec : List Nat → DecOut Msg)
    (m : Msg) (r : List Nat) (hne : enc m ≠ [])
    (hdec : dec (enc m ++ r) = DecOut.ok m (enc m).length) :
    (decode dec ((encode enc m Buffer.new).write r)).2 = Except.ok (some m) ∧
    ((decode dec ((encode enc m Buffer.new).write r)).1).bytesAfter = r := by
  have he : encode enc m Buffer.new = Buffer.new.write (enc m) := rfl
  rw [he]
  obtain ⟨hpos, hba, hwf⟩ := write_write_fresh (enc m) r hne
  have hdB : dec ((Buffer.new.write (enc m)).write r).bytesAfter
      = DecOut.ok m (enc m).length := by rw [hba]; exact hdec
  have h1 : decode dec ((Buffer.new.write (enc m)).write r)
      = (((((Buffer.new.write (enc m)).write r).setCheckpoint.read (enc m).length).1).commit,
          Except.ok (some m)) := by
    simp only [decode, runDecoder, Buffer.bytesAfter_setCheckpoint, hdB, DecOut.consumed]
  obtain ⟨_, _, hc3, _⟩ :=
    Buffer.read_spec (((Buffer.new.write (enc m)).write r).setCheckpoint) (enc m).length hwf
  rw [Buffer.bytesAfter_setCheckpoint, hba] at hc3
  have hmin : min (enc m).length (enc m ++ r).length = (enc m).length := by
    rw [List.length_append]; omega
  rw [hmin, List.drop_left] at hc3
  constructor
  · rw [h1]
  · rw [h1]
    show ((((Buffer.new.write (enc m)).write r).setCheckpoint.read
      (enc m).length).1).commit.bytesAfter = r
    rw [Buffer.bytesAfter_commit, hc3]

/-- C8 witness: round trip at a concrete one byte codec with remainder. -/
theorem C8_roundtrip_witness :
    (decode decNat ((encode encNat 5 Buffer.new).write [7, 9])).2 = Except.ok (some 5) ∧
    ((decode decNat ((encode encNat 5 Buffer.new).write [7, 9])).1).bytesAfter = [7, 9] :=
  C8_roundtrip Nat encNat decNat 5 [7, 9] (by decide) (by rfl)

/-- C3 counterexample: read returns 0 without the buffer being empty, both
for a fully consumed buffer with room in the destination and for an empty
destination on a buffer with unread bytes, refuting that a zero return
implies an empty buffer. -/
theorem C3_counterexample :
    (((((Buffer.new.write [1]).read 1).1).read 1).2.1 = 0 ∧
      ((((Buffer.new.write [1]).read 1).1)).content ≠ [] ∧
      ((((Buffer.new.write [1]).read 1).1)).into_vec = [1]) ∧
    ((Buffer.new.write [1]).read 0).2.1 = 0 ∧
    (Buffer.new.write [1]).bytesAfter = [1] := by
  decide

/-- C3 amended: read copies up to dstLen bytes starting at the cursor,
advancing the cursor across chunk boundaries, returns the count actually
read, which is the minimum of dstLen and the unread byte count; it returns
0 exactly when the destination is empty or no unread bytes remain, even
though consumed chunks may still sit in the buffer. -/
theorem C3_read_cursor (b : Buffer) (n : Nat) (hwf : b.WF) :
    (b.read n).2.1 = min n b.bytesAfter.length ∧
    (b.read n).2.2 = b.bytesAfter.take ((b.read n).2.1) ∧
    ((b.read n).1).bytesAfter = b.bytesAfter.drop ((b.read n).2.1) ∧
    ((b.read n).2.1 = 0 ↔ n = 0 ∨ b.bytesAfter = []) := by
  obtain ⟨h1, h2, h3, _⟩ := Buffer.read_spec b n hwf
  refine ⟨h1, by rw [h1]; exact h2, by rw [h1]; exact h3, ?_⟩
  rw [h1]
  constructor
  · intro h
    rcases Nat.min_eq_zero_iff.mp h with h | h
    · exact Or.inl h
    · exact Or.inr (List.length_eq_zero.mp h)
  · intro h
    rcases h with h | h
    · simp [h]
    · simp [h]

/-- C3 witness: concrete read of a two byte buffer with a larger
destination returns count two and drains the bytes in order. -/
theorem C3_read_cursor_witness :
    ((Buffer.new.write [1, 2]).read 5).2.1
        = min 5 (Buffer.new.write [1, 2]).bytesAfter.length ∧
    ((Buffer.new.write [1, 2]).read 5).2.2
        = (Buffer.new.write [1, 2]).bytesAfter.take (((Buffer.new.write [1, 2]).read 5).2.1) ∧
    (((Buffer.new.write [1, 2]).read 5).1).bytesAfter
        = (Buffer.new.write [1, 2]).bytesAfter.drop (((Buffer.new.write [1, 2]).read 5).2.1) ∧
    (((Buffer.new.write [1, 2]).read 5).2.1 = 0 ↔ 5 = 0
        ∨ (Buffer.new.write [1, 2]).bytesAfter = []) :=
  C3_read_cursor (Buffer.new.write [1, 2]) 5 (by decide)

set_option maxRecDepth 40000 in
/-- C2: the code extends the chunk at the cursor index rather than the tail
chunk.  After a 1024 byte chunk followed by two one byte chunks is read
past the first chunk and committed, a further write lands inside the first
remaining chunk, in front of the bytes of the last chunk: the buffer then
reads back 2, 4, 3 although the unread bytes before the write were 2, 3
and 4 was written last. -/
theorem C2_write_extends_cursor_chunk :
    (((((Buffer.new.write (List.replicate 1024 7)).write [2]).write [3]).read 1024).1.commit).content
        = [[2], [3]] ∧
    (((((Buffer.new.write (List.replicate 1024 7)).write [2]).write [3]).read 1024).1.commit).bytesAfter
        = [2, 3] ∧
    ((((((Buffer.new.write (List.replicate 1024 7)).write [2]).write [3]).read 1024).1.commit).write [4]).content
        = [[2, 4], [3]] ∧
    ((((((Buffer.new.write (List.replicate 1024 7)).write [2]).write [3]).read 1024).1.commit).write [4]).bytesAfter
        = [2, 4, 3] := by
  decide

theorem handshakeResult_snd (q : Peer) : (Peer.handshakeResult q).2 = q := by
  unfold Peer.handshakeResult
  split <;> rfl

theorem process_handshake_version_mono (p : Peer) (m : NetworkMessage) (v : VersionMessage)
    (h : p.version = some v) : ((p.process_handshake m).2).version = some v := by
  unfold Peer.process_handshake
  split
  · cases m with
    | version v2 => simp [h]
    | verack =>
      by_cases hg : p.got_verack = true
      · simp [hg, h]
      · simp [hg, handshakeResult_snd, h]
    | other t => simp [h]
  · simpa using h

theorem process_handshake_verack_mono (p : Peer) (m : NetworkMessage)
    (h : p.got_verack = true) : ((p.process_handshake m).2).got_verack = true := by
  unfold Peer.process_handshake
  split
  · cases m with
    | version v2 =>
      by_cases h1 : p.version.isSome
      · simp [h1, h]
      · by_cases h2 : v2.nonce = p.nonce
        · simp [h1, h2, h]
        · by_cases h3 : Nat.land v2.services 9 ≠ 9 ∨ v2.version < 70013
          · simp [h1, h2, h3, h]
          · simp [h1, h2, h3, handshakeResult_snd, Peer.send, Peer.deregister,
              Peer.register_write, h]
    | verack => simp [h]
    | other t => simp [h]
  · simpa using h

/-- C10: once the handshake is complete, process_handshake classifies every
message as Process and returns the peer record unchanged - no field is
touched and nothing is enqueued. -/
theorem C10_passthrough (p : Peer) (msg : NetworkMessage) (v : VersionMessage)
    (hv : p.version = some v) (hg : p.got_verack = true) :
    p.process_handshake msg = (HandShake.Process, p) := by
  unfold Peer.process_handshake
  rw [if_neg]
  simp [hv, hg]

/-- C10 witness: a concrete completed peer passes an application message
through untouched. -/
theorem C10_passthrough_witness :
    pTerminal.process_handshake (NetworkMessage.other 42) = (HandShake.Process, pTerminal) :=
  C10_passthrough pTerminal (NetworkMessage.other 42) vGood rfl rfl

/-- C4 counterexample: a peer holding a remote version but not yet in the
terminal state disconnects on a well formed second Version message whose
nonce, services and version all pass the checks, instead of enqueueing a
Verack and returning InProgress as the claim states. -/
theorem C4_counterexample :
    ¬(pSecondVersion.version.isSome ∧ pSecondVersion.got_verack) ∧
    vGood.nonce ≠ pSecondVersion.nonce ∧
    Nat.land vGood.services 9 = 9 ∧
    ¬(vGood.version < 70013) ∧
    pSecondVersion.process_handshake (NetworkMessage.version vGood)
      = (HandShake.Disconnect, pSecondVersion) := by decide

/-- C4 amended: for a peer not yet in the terminal state, a Version
message disconnects when the remote version is already set, the nonce
matches the local nonce, services lack the 9 mask or the version is below
70013; otherwise a Verack is enqueued via send, the version is stored and
the result is InProgress, or Handshake when got_verack already holds. -/
theorem C4_version_message (p : Peer) (v : VersionMessage)
    (hterm : ¬(p.version.isSome ∧ p.got_verack)) :
    ((p.version.isSome = true ∨ v.nonce = p.nonce ∨ Nat.land v.services 9 ≠ 9
        ∨ v.version < 70013) →
      p.process_handshake (NetworkMessage.version v) = (HandShake.Disconnect, p)) ∧
    (p.version = none → v.nonce ≠ p.nonce → Nat.land v.services 9 = 9 →
      ¬(v.version < 70013) →
      p.process_handshake (NetworkMessage.version v)
        = ((if p.got_verack then HandShake.Handshake else HandShake.InProgress),
            { p with
                version := some v,
                mailbox := p.mailbox ++ [NetworkMessage.verack],
                reg := ⟨false, true⟩ })) := by
  constructor
  · intro hd
    by_cases h1 : p.version.isSome
    · have hg : p.got_verack = false := by
        cases hgv : p.got_verack
        · rfl
        · exact absurd ⟨h1, hgv⟩ hterm
      simp [Peer.process_handshake, h1, hg]
    · by_cases h2 : v.nonce = p.nonce
      · simp [Peer.process_handshake, hterm, h1, h2]
      · have h3 : Nat.land v.services 9 ≠ 9 ∨ v.version < 70013 := by
          rcases hd with hd | hd | hd | hd
          · exact absurd hd h1
          · exact absurd hd h2
          · exact Or.inl hd
          · exact Or.inr hd
        simp [Peer.process_handshake, hterm, h1, h2, h3]
  · intro hnone hn hs hv70
    have h3 : ¬(Nat.land v.services 9 ≠ 9 ∨ v.version < 70013) := by
      push_neg
      exact ⟨hs, by omega⟩
    rcases p with ⟨pid, buf, gv, nn, ver, mb, rg⟩
    simp only at hnone hn
    subst hnone
    cases gv with
    | false =>
      simp [Peer.process_handshake, Peer.handshakeResult, Peer.send, Peer.deregister,
        Peer.register_write, hn, h3]
    | true =>
      simp [Peer.process_handshake, Peer.handshakeResult, Peer.send, Peer.deregister,
        Peer.register_write, hn, h3]

/-- C4 witness: a fresh peer accepting a well formed Version stores it,
enqueues a Verack and reports InProgress. -/
theorem C4_version_message_witness :
    pFresh.process_handshake (NetworkMessage.version vGood)
      = ((if pFresh.got_verack then HandShake.Handshake else HandShake.InProgress),
          { pFresh with
              version := some vGood,
              mailbox := pFresh.mailbox ++ [NetworkMessage.verack],
              reg := ⟨false, true⟩ }) :=
  (C4_version_message pFresh vGood (by decide)).2 rfl (by decide) (by decide) (by decide)

/-- C5 counterexample: in the terminal state a further Verack is returned
as Process, not Disconnect, refuting the claim that a second Verack after
got_verack always disconnects. -/
theorem C5_counterexample :
    pTerminal.got_verack = true ∧
    pTerminal.process_handshake NetworkMessage.verack = (HandShake.Process, pTerminal) ∧
    HandShake.Process ≠ HandShake.Disconnect := by decide

/-- C5 amended: remote_version, once set, never changes and got_verack
never falls back to false over any message sequence, so each is assigned
at most once; while the handshake is incomplete a second Version after
remote_version is set and a second Verack after got_verack is true each
return Disconnect without modifying the peer; in the complete state
messages return Process instead. -/
theorem C5_handshake_once :
    (∀ (p : Peer) (ms : List NetworkMessage) (v : VersionMessage),
      p.version = some v → (runHandshake p ms).version = some v) ∧
    (∀ (p : Peer) (ms : List NetworkMessage),
      p.got_verack = true → (runHandshake p ms).got_verack = true) ∧
    (∀ (p : Peer) (v : VersionMessage), p.version.isSome = true → p.got_verack = false →
      p.process_handshake (NetworkMessage.version v) = (HandShake.Disconnect, p)) ∧
    (∀ p : Peer, p.version = none → p.got_verack = true →
      p.process_handshake NetworkMessage.verack = (HandShake.Disconnect, p)) := by
  refine ⟨?_, ?_, ?_, ?_⟩
  · intro p ms
    induction ms generalizing p with
    | nil => intro v h; exact h
    | cons m rest ih =>
      intro v h
      exact ih _ v (process_handshake_version_mono p m v h)
  · intro p ms
    induction ms generalizing p with
    | nil => intro h; exact h
    | cons m rest ih =>
      intro h
      exact ih _ (process_handshake_verack_mono p m h)
  · intro p v hsome hg
    simp [Peer.process_handshake, hsome, hg]
  · intro p hnone hg
    simp [Peer.process_handshake, hnone, hg]

/-- C5 witness: a second Version at a peer with remote_version set and no
verack disconnects without modification. -/
theorem C5_handshake_once_witness :
    pSecondVersion.process_handshake (NetworkMessage.version vGood)
      = (HandShake.Disconnect, pSecondVersion) :=
  C5_handshake_once.2.2.1 pSecondVersion vGood (by decide) (by decide)

theorem process_handshake_reg (p : Peer) (m : NetworkMessage) :
    ((p.process_handshake m).2).reg = p.reg
      ∨ ((p.process_handshake m).2).reg = ⟨false, true⟩ := by
  unfold Peer.process_handshake
  split
  · cases m with
    | version v =>
      by_cases h1 : p.version.isSome
      · simp [h1]
      · by_cases h2 : v.nonce = p.nonce
        · simp [h1, h2]
        · by_cases h3 : Nat.land v.services 9 ≠ 9 ∨ v.version < 70013
          · simp [h1, h2, h3]
          · right
            simp [h1, h2, h3, handshakeResult_snd, Peer.send, Peer.deregister,
              Peer.register_write]
    | verack =>
      by_cases hg : p.got_verack = true
      · simp [hg]
      · simp [hg, handshakeResult_snd]
    | other t => simp
  · simp

/-- C6: a peer starts read registered and every dispatcher operation -
send, handshake processing and the writable drain - leaves it registered
for exactly one of read and write; send ends write registered and the
writable drain re-registers for read. -/
theorem C6_registration_xor :
    (∀ (pid nonce : Nat) (ops : List PeerOp), RegOk (applyOps (Peer.new pid nonce) ops)) ∧
    (∀ p : Peer, ((p.writableDrain).1).reg = ⟨true, false⟩) ∧
    (∀ (p : Peer) (m : NetworkMessage), (p.send m).reg = ⟨false, true⟩) := by
  have hstep : ∀ (p : Peer) (op : PeerOp), RegOk p → RegOk (applyOp p op) := by
    intro p op hp
    cases op with
    | send m =>
      right
      exact ⟨rfl, rfl⟩
    | handshake m =>
      rcases process_handshake_reg p m with h | h
      · have h2 : (applyOp p (PeerOp.handshake m)).reg = p.reg := h
        unfold RegOk at hp ⊢
        rw [h2]
        exact hp
      · have h2 : (applyOp p (PeerOp.handshake m)).reg = ⟨false, true⟩ := h
        right
        rw [h2]
        exact ⟨rfl, rfl⟩
    | writable =>
      left
      exact ⟨rfl, rfl⟩
  refine ⟨?_, fun p => rfl, fun p m => rfl⟩
  intro pid nonce ops
  have hrun : ∀ (l : List PeerOp) (p : Peer), RegOk p → RegOk (applyOps p l) := by
    intro l
    induction l with
    | nil => intro p hp; exact hp
    | cons op rest ih =>
      intro p hp
      exact ih _ (hstep p op hp)
  exact hrun ops _ (Or.inl ⟨rfl, rfl⟩)

/-- C7 counterexample: a node directed disconnect followed by a hangup for
the same peer, and likewise two hangups, each produce two
node.disconnected calls, refuting the exactly once claim. -/
theorem C7_counterexample :
    ((hupEvent (processDisconnect ⟨[0], []⟩ 0) 0).disconnectedCalls.count 0 = 2) ∧
    ((hupEvent (hupEvent ⟨[0], []⟩ 0) 0).disconnectedCalls.count 0 = 2) := by decide

/-- C7 amended: node.disconnected is called exactly once per disconnect
trigger, not once per peer: both the hangup branch and the node directed
disconnect branch append the call unconditionally, the latter leaves the
registry unchanged, and two triggers for one pid produce two calls; only
the registry removal is idempotent. -/
theorem C7_disconnect_per_trigger (s : Dispatcher) (pid : Nat) :
    (hupEvent s pid).disconnectedCalls = s.disconnectedCalls ++ [pid] ∧
    (processDisconnect s pid).disconnectedCalls = s.disconnectedCalls ++ [pid] ∧
    (processDisconnect s pid).registry = s.registry ∧
    (hupEvent (processDisconnect s pid) pid).disconnectedCalls.count pid
      = s.disconnectedCalls.count pid + 2 := by
  have h1 : ∀ t : Dispatcher,
      (hupEvent t pid).disconnectedCalls = t.disconnectedCalls ++ [pid] := by
    intro t
    simp only [hupEvent]
    split <;> rfl
  refine ⟨h1 s, rfl, rfl, ?_⟩
  rw [h1]
  simp [processDisconnect, List.count_append]

end Murmel
